import Mathlib

/-!
A shallow embedding of `src/Main.py` (FromCSVtoJSON): the text-normalization
pipeline (`TextNormalizer`), the CSV/JSON readers and writers
(`CSVConverter`, `JSONConverter`), and the orchestrating dispatcher
(`FileConverter`), together with proofs about the embedded definitions.

Python strings are modelled as Lean `String` (a list of Unicode scalar
values); the file system is a partial map from paths to file contents;
Python exceptions are modelled with `Except`.
-/

namespace FromCSVtoJSON

/-! ## Character-level model of the Python standard library

`unicodedata.normalize('NFD', ·)`, `unicodedata.category`, `str.lower` and
`str.strip` are modelled character by character.  The canonical
decompositions cover the precomposed Latin letters with grave, acute,
circumflex, tilde, diaeresis, ring and cedilla; every other character is
its own NFD decomposition, exactly as in Unicode for all ASCII characters.
-/

/-- Helper to build rows of the canonical-decomposition table: each
precomposed character maps to its base letter followed by `mark`. -/
def accRow (composed bases : String) (mark : Char) : List (Char × List Char) :=
  (composed.data.zip bases.data).map (fun p => (p.1, [p.2, mark]))

/-- Modelled from Python's `unicodedata.normalize('NFD', ·)`: the canonical
decompositions of the precomposed Latin-1 letters (base letter followed by
the combining mark). Characters absent from this table decompose to
themselves. -/
def nfdTable : List (Char × List Char) :=
  accRow "ÀÈÌÒÙàèìòù" "AEIOUaeiou" '̀' ++
  accRow "ÁÉÍÓÚÝáéíóúý" "AEIOUYaeiouy" '́' ++
  accRow "ÂÊÎÔÛâêîôû" "AEIOUaeiou" '̂' ++
  accRow "ÃÑÕãñõ" "ANOano" '̃' ++
  accRow "ÄËÏÖÜäëïöü" "AEIOUaeiou" '̈' ++
  accRow "Åå" "Aa" '̊' ++
  accRow "Çç" "Cc" '̧'

/-- NFD decomposition of a single character. -/
def nfd (c : Char) : List Char :=
  match nfdTable.find? (fun p => p.1 = c) with
  | some p => p.2
  | none => [c]

/-- The combining marks used by the decomposition table (all of Unicode
category `Mn`, "nonspacing mark"). -/
def mnMarks : List Char :=
  ['̀', '́', '̂', '̃', '̈', '̊', '̧']

/-- Modelled from `unicodedata.category(c) == 'Mn'` for the characters in
scope: a character is a nonspacing mark iff it is one of the combining
marks of the table. -/
def isMn (c : Char) : Bool := mnMarks.contains c

/-- Modelled from Python's `str.lower` for the characters in scope:
ASCII letters `A`–`Z` and the precomposed Latin-1 capital letters map to
their lowercase forms; every other character is returned unchanged. -/
def lowerTable : List (Char × Char) :=
  "ABCDEFGHIJKLMNOPQRSTUVWXYZ".data.zip "abcdefghijklmnopqrstuvwxyz".data ++
  "ÀÁÂÃÄÅÇÈÉÊËÌÍÎÏÑÒÓÔÕÖÙÚÛÜÝ".data.zip "àáâãäåçèéêëìíîïñòóôõöùúûüý".data

/-- Lowercasing of a single character (see `lowerTable`). -/
def pyLower (c : Char) : Char :=
  match lowerTable.find? (fun p => p.1 = c) with
  | some p => p.2
  | none => c

/-- Modelled from Python's `str.strip` whitespace set (the ASCII
whitespace characters). -/
def wsChars : List Char := [' ', '\t', '\n', '\r', '\u000B', '\u000C']

/-- Is `c` whitespace for the purposes of `str.strip`? -/
def isPyWs (c : Char) : Bool := wsChars.contains c

/-- The character class `[a-zA-Z0-9_]` of the regular expression in
`TextNormalizer.normalizeKey` (`re.sub(r'[^a-zA-Z0-9_]', '_', key)`). -/
def wordChars : List Char :=
  "ABCDEFGHIJKLMNOPQRSTUVWXYZabcdefghijklmnopqrstuvwxyz0123456789_".data

/-- The character class `[a-z0-9_]` of the sanitized-key invariant
(spec §3). -/
def keyChars : List Char :=
  "abcdefghijklmnopqrstuvwxyz0123456789_".data

/-! ## List-of-characters string operations -/

/-- `''.join(c for c in normalized if unicodedata.category(c) != 'Mn')`
applied to the NFD decomposition: `TextNormalizer.removeAccents` on the
character list. -/
def removeAccentsL (cs : List Char) : List Char :=
  (cs.flatMap nfd).filter (fun c => !isMn c)

/-- `str.lower` character-wise. -/
def pyLowerL (cs : List Char) : List Char := cs.map pyLower

/-- `re.sub(r'[^a-zA-Z0-9_]', '_', ·)` character-wise. -/
def regexSubL (cs : List Char) : List Char :=
  cs.map (fun c => if wordChars.contains c then c else '_')

/-- `str.strip`: drop leading and trailing whitespace. -/
def pyStripL (cs : List Char) : List Char :=
  (((cs.dropWhile isPyWs).reverse.dropWhile isPyWs)).reverse

/-! ## TextNormalizer, string level -/

/-- `TextNormalizer.removeAccents` on an actual string value
(`src/Main.py` lines 106–112, string branch). -/
def removeAccents (s : String) : String := ⟨removeAccentsL s.data⟩

/-- `TextNormalizer.normalizeText` on an actual string value
(`src/Main.py` lines 114–120, string branch):
`removeAccents`, then `.lower()`, then `.strip()`. -/
def normalizeText (s : String) : String :=
  ⟨pyStripL (pyLowerL (removeAccentsL s.data))⟩

/-- `TextNormalizer.normalizeKey` on an actual string value
(`src/Main.py` lines 122–129, string branch):
`removeAccents`, then the regex substitution, then `.lower()`. -/
def normalizeKey (s : String) : String :=
  ⟨pyLowerL (regexSubL (removeAccentsL s.data))⟩

/-! ## JSON values

Python values flowing through the pipeline (CSV cells, `json.load`
results).  Arrays and objects are separate mutual inductives so that all
recursion over them is structural. -/

mutual
/-- A Python value as produced by `json.load` / `csv.DictReader`:
`None`, `bool`, number, `str`, `list`, `dict`.  Numbers are modelled as
`mantissa × 10 ^ exponent` pairs of integers. -/
inductive Json where
  | null : Json
  | bool : Bool → Json
  | num : Int → Int → Json
  | str : String → Json
  | arr : JsonArr → Json
  | obj : JsonObj → Json

/-- A JSON array. -/
inductive JsonArr where
  | nil : JsonArr
  | cons : Json → JsonArr → JsonArr

/-- A JSON object (insertion-ordered, as a Python `dict`). -/
inductive JsonObj where
  | nil : JsonObj
  | cons : String → Json → JsonObj → JsonObj
end

/-- A record: a Python `dict` mapping field names to values, modelled as
an insertion-ordered association list (spec §3 "Record"). -/
abbrev Record := List (String × Json)

/-- A dataset: an ordered sequence of records (spec §3 "Dataset"). -/
abbrev Dataset := List Record

/-- Python `dict` item assignment `d[k] = v`: overwrite in place if the
key is present (keeping its position), otherwise append at the end. -/
def dictInsert (d : Record) (k : String) (v : Json) : Record :=
  if d.any (fun p => p.1 = k) then
    d.map (fun p => if p.1 = k then (k, v) else p)
  else d ++ [(k, v)]

/-! ## TextNormalizer.cleanData -/

/-- The `isinstance(value, str)` branch of `cleanData`
(`src/Main.py` lines 140–143): normalize string values, leave the rest. -/
def normalizeValue (v : Json) : Json :=
  match v with
  | .str s => .str (normalizeText s)
  | v => v

/-- The sentinel substitution of `cleanData` (`src/Main.py` lines
145–146): `None` and the empty string become `"n/a"`. -/
def substSentinel (v : Json) : Json :=
  match v with
  | .null => .str "n/a"
  | .str s => if s = "" then .str "n/a" else .str s
  | v => v

/-- The whole per-value transformation of `cleanData`. -/
def cleanValue (v : Json) : Json := substSentinel (normalizeValue v)

/-- The per-record loop of `TextNormalizer.cleanData` (`src/Main.py`
lines 136–148): iterate the fields in order, inserting
`(normalizeKey key, cleaned value)` into a fresh `dict`. -/
def cleanRecord (item : Record) : Record :=
  item.foldl (fun acc kv => dictInsert acc (normalizeKey kv.1) (cleanValue kv.2)) []

/-- `TextNormalizer.cleanData` (`src/Main.py` lines 131–152). -/
def cleanData (data : Dataset) : Dataset := data.map cleanRecord

/-! ## TextNormalizer on arbitrary Python values

The Python methods take arbitrary values and return non-string input
unchanged (`if not isinstance(text, str): return text`). -/

/-- `TextNormalizer.removeAccents` on an arbitrary value
(`src/Main.py` lines 106–112). -/
def removeAccentsV : Json → Json
  | .str s => .str (removeAccents s)
  | v => v

/-- `TextNormalizer.normalizeText` on an arbitrary value
(`src/Main.py` lines 114–120). -/
def normalizeTextV : Json → Json
  | .str s => .str (normalizeText s)
  | v => v

/-- `TextNormalizer.normalizeKey` on an arbitrary value
(`src/Main.py` lines 122–129). -/
def normalizeKeyV : Json → Json
  | .str s => .str (normalizeKey s)
  | v => v

/-! ## Reference definition of cleanData, from the spec's words (§4.1)

For the refinement claim, a second definition of the per-record cleaning
follows the spec's sentence: each key is `normalizeKey`-transformed, each
string value `normalizeText`-transformed (non-strings as-is), null/empty
results become `"n/a"`; field order follows the original key's first
appearance, and a later field with the same normalized key silently
overwrites the earlier one's value. -/

/-- Look up the value stored under key `k`. -/
def recFind (r : Record) (k : String) : Option Json :=
  (r.find? (fun p => p.1 = k)).map (fun p => p.2)

/-- The spec's per-value transformation: `normalizeText` for strings,
identity otherwise, then null/empty becomes the sentinel `"n/a"`. -/
def cleanValueSpec (v : Json) : Json :=
  match v with
  | .null => .str "n/a"
  | .str s => if normalizeText s = "" then .str "n/a" else .str (normalizeText s)
  | v => v

/-- The spec's per-record cleaning: the head field's normalized key comes
first; if a later field normalizes to the same key, that later field's
value stands and the duplicate entry disappears. -/
def cleanRecordSpec : Record → Record
  | [] => []
  | (k, v) :: rest =>
    let nk := normalizeKey k
    let tail := cleanRecordSpec rest
    match recFind tail nk with
    | some w => (nk, w) :: tail.filter (fun q => q.1 ≠ nk)
    | none => (nk, cleanValueSpec v) :: tail

/-- The spec's `cleanData`: records processed independently, in order. -/
def cleanDataSpec (d : Dataset) : Dataset := d.map cleanRecordSpec

/-- Rewrite an entry of the accumulator with the value the spec-side
record assigns to its key, if any (proof device for the refinement). -/
def updBy (spec : Record) (p : String × Json) : String × Json :=
  match recFind spec p.1 with
  | some w => (p.1, w)
  | none => p

/-- Merging a cleaned suffix into an accumulator: existing keys are
updated in place, new keys are appended in order (proof device). -/
def mergeSpec (acc spec : Record) : Record :=
  acc.map (updBy spec) ++ spec.filter (fun q => !acc.any (fun p => p.1 = q.1))

/-! ## File system and error model -/

/-- The file system: a partial map from paths to file contents. -/
abbrev FS := (String → Option String)

/-- Writing a file (`open(path, 'w')` + write): replaces the content. -/
def fsWrite (fs : FS) (p c : String) : FS :=
  fun q => if q = p then some c else fs q

/-- The Python exceptions the program can raise. -/
inductive PyErr where
  | fileNotFound : String → PyErr
  | valueError : String → PyErr
  | typeError : String → PyErr
deriving DecidableEq

/-! ## CSV reading

Modelled from the `csv` module as used here: text-mode reading applies
universal-newline translation; `csv.reader` yields one row per line, a
blank line yielding the empty row, other lines split on the delimiter.
Quoted fields are outside the model (none of the repository's behavior
under proof involves quote characters on input). -/

/-- Universal-newline translation of text-mode `open`: `\r\n` and lone
`\r` become `\n`. -/
def univNewlines : List Char → List Char
  | [] => []
  | '\r' :: '\n' :: rest => '\n' :: univNewlines rest
  | '\r' :: rest => '\n' :: univNewlines rest
  | c :: rest => c :: univNewlines rest

/-- Split on `'\n'`, accumulating the current piece in reverse. -/
def splitPiecesAux : List Char → List Char → List (List Char)
  | [], acc => [acc.reverse]
  | '\n' :: rest, acc => acc.reverse :: splitPiecesAux rest []
  | c :: rest, acc => splitPiecesAux rest (c :: acc)

/-- Drop a trailing empty piece (a final newline ends the last line, it
does not open a new one). -/
def dropLastEmpty (ps : List (List Char)) : List (List Char) :=
  match ps.reverse with
  | [] :: rest => rest.reverse
  | _ => ps

/-- The lines of a file as iterated by `csv.reader`. -/
def splitLines (cs : List Char) : List (List Char) :=
  match cs with
  | [] => []
  | _ => dropLastEmpty (splitPiecesAux cs [])

/-- Split one line into fields on the delimiter. -/
def splitFieldsAux (delim : Char) : List Char → List Char → List String
  | [], acc => [⟨acc.reverse⟩]
  | c :: rest, acc =>
    if c = delim then (⟨acc.reverse⟩ : String) :: splitFieldsAux delim rest []
    else splitFieldsAux delim rest (c :: acc)

/-- The `csv.reader` row of one line: the empty line is the empty row. -/
def rowOfLine (delim : Char) (line : List Char) : List String :=
  match line with
  | [] => []
  | _ => splitFieldsAux delim line []

/-- All rows `csv.reader` yields for a file content. -/
def parseCSVRows (delim : Char) (content : String) : List (List String) :=
  (splitLines (univNewlines content.data)).map (rowOfLine delim)

/-- One `csv.DictReader` record: `dict(zip(fieldnames, row))`, with
missing cells filled by the restval `None`.  (Cells beyond the header,
which Python files under a `None` key, are outside the model.) -/
def zipHeaderRow (header row : List String) : Record :=
  (header.enum.map (fun p => (p.2, match row.get? p.1 with
    | some v => Json.str v
    | none => Json.null))).foldl (fun acc kv => dictInsert acc kv.1 kv.2) []

/-- `csv.DictReader`: first row is the header, blank rows are skipped,
each remaining row becomes a record. -/
def dictReader (rows : List (List String)) : Dataset :=
  match rows with
  | [] => []
  | header :: rest => (rest.filter (fun r => !r.isEmpty)).map (zipHeaderRow header)

/-- `CSVConverter.readData` (`src/Main.py` lines 46–50). -/
def csvReadData (delim : Char) (fs : FS) (p : String) : Except PyErr Dataset :=
  match fs p with
  | none => .error (.fileNotFound p)
  | some c => .ok (dictReader (parseCSVRows delim c))

/-- The body of `CSVConverter.validateFormat` before the bare `except:`
(`src/Main.py` lines 68–71): open the file and ask whether
`next(reader, None) is not None`. -/
def csvValidateBody (delim : Char) (fs : FS) (p : String) : Except PyErr Bool :=
  match fs p with
  | none => .error (.fileNotFound p)
  | some c => .ok (!(parseCSVRows delim c).isEmpty)

/-- `CSVConverter.validateFormat` (`src/Main.py` lines 67–73): any
exception in the body becomes `False`. -/
def csvValidateFormat (delim : Char) (fs : FS) (p : String) : Bool :=
  match csvValidateBody delim fs p with
  | .ok b => b
  | .error _ => false

/-! ## JSON parsing

Modelled from `json.load`: recursive descent over the characters, with a
fuel argument bounding the nesting depth (amply larger than the input
length).  Objects are built with `dict` semantics (duplicate keys: last
value wins, first position kept).  Surrogate-pair recombination and the
nonstandard `NaN`/`Infinity` literals are outside the model. -/

/-- Value of a hexadecimal digit. -/
def hexVal (c : Char) : Option Nat :=
  if '0' ≤ c ∧ c ≤ '9' then some (c.toNat - '0'.toNat)
  else if 'a' ≤ c ∧ c ≤ 'f' then some (c.toNat - 'a'.toNat + 10)
  else if 'A' ≤ c ∧ c ≤ 'F' then some (c.toNat - 'A'.toNat + 10)
  else none

/-- JSON string body after the opening quote: literal characters and the
standard escapes, ending at the closing quote. -/
def parseJStrAux : List Char → List Char → Option (List Char × List Char)
  | [], _ => none
  | '"' :: rest, acc => some (acc.reverse, rest)
  | '\\' :: rest, acc =>
    match rest with
    | 'n' :: r => parseJStrAux r ('\n' :: acc)
    | 't' :: r => parseJStrAux r ('\t' :: acc)
    | 'r' :: r => parseJStrAux r ('\r' :: acc)
    | 'b' :: r => parseJStrAux r ('\u0008' :: acc)
    | 'f' :: r => parseJStrAux r ('\u000C' :: acc)
    | '"' :: r => parseJStrAux r ('"' :: acc)
    | '\\' :: r => parseJStrAux r ('\\' :: acc)
    | '/' :: r => parseJStrAux r ('/' :: acc)
    | 'u' :: h1 :: h2 :: h3 :: h4 :: r =>
      match hexVal h1, hexVal h2, hexVal h3, hexVal h4 with
      | some a, some b, some c, some d =>
        parseJStrAux r (Char.ofNat (((a * 16 + b) * 16 + c) * 16 + d) :: acc)
      | _, _, _, _ => none
    | _ => none
  | c :: rest, acc =>
    if c.toNat < 0x20 then none else parseJStrAux rest (c :: acc)

/-- Take the leading decimal digits. -/
def takeDigits : List Char → List Char → (List Char × List Char)
  | [], acc => (acc.reverse, [])
  | c :: rest, acc =>
    if '0' ≤ c ∧ c ≤ '9' then takeDigits rest (c :: acc)
    else (acc.reverse, c :: rest)

/-- Natural number denoted by a digit string. -/
def natOfDigits (ds : List Char) : Nat :=
  ds.foldl (fun n c => n * 10 + (c.toNat - '0'.toNat)) 0

/-- JSON number: optional minus, integer part without leading zeros,
optional fraction and exponent.  The result is `(mantissa, exponent)`
with value `mantissa * 10 ^ exponent`. -/
def parseNum (cs : List Char) : Option ((Int × Int) × List Char) :=
  let (neg, cs1) := match cs with
    | '-' :: r => (true, r)
    | _ => (false, cs)
  let ipart : Option (List Char × List Char) := match cs1 with
    | '0' :: r => some (['0'], r)
    | c :: _ =>
      if '1' ≤ c ∧ c ≤ '9' then some (takeDigits cs1 []) else none
    | [] => none
  match ipart with
  | none => none
  | some (ids, cs2) =>
    let (fds, cs3) := match cs2 with
      | '.' :: r =>
        match takeDigits r [] with
        | ([], _) => ([], cs2)
        | (ds, r2) => (ds, r2)
      | _ => ([], cs2)
    let fracOk : Bool := match cs2 with
      | '.' :: r => !(takeDigits r []).1.isEmpty
      | _ => true
    let epart : Option (Int × List Char) := match cs3 with
      | 'e' :: r | 'E' :: r =>
        let (esign, r1) : (Bool × List Char) := match r with
          | '-' :: r2 => (true, r2)
          | '+' :: r2 => (false, r2)
          | _ => (false, r)
        match takeDigits r1 [] with
        | ([], _) => none
        | (ds, r2) => some (if esign then -(natOfDigits ds : Int) else (natOfDigits ds : Int), r2)
      | _ => some (0, cs3)
    match fracOk, epart with
    | true, some (ex, rest) =>
      let mant : Int := natOfDigits (ids ++ fds)
      some ((if neg then -mant else mant, ex - fds.length), rest)
    | _, _ => none

/-- JSON whitespace skipping. -/
def skipWsJ (cs : List Char) : List Char :=
  cs.dropWhile (fun c => c = ' ' || c = '\t' || c = '\n' || c = '\r')

/-- A `List Json` as a `JsonArr`. -/
def listToArr : List Json → JsonArr
  | [] => .nil
  | x :: xs => .cons x (listToArr xs)

/-- A `Record` as a `JsonObj`. -/
def listToObj : List (String × Json) → JsonObj
  | [] => .nil
  | (k, v) :: xs => .cons k v (listToObj xs)

/-- A `JsonArr` as a `List Json`. -/
def arrToList : JsonArr → List Json
  | .nil => []
  | .cons x xs => x :: arrToList xs

/-- A `JsonObj` as a `Record`. -/
def objToList : JsonObj → Record
  | .nil => []
  | .cons k v xs => (k, v) :: objToList xs

mutual
/-- One JSON value, leading whitespace allowed. -/
def parseVal : Nat → List Char → Option (Json × List Char)
  | 0, _ => none
  | fuel + 1, cs =>
    match skipWsJ cs with
    | 'n' :: 'u' :: 'l' :: 'l' :: rest => some (.null, rest)
    | 't' :: 'r' :: 'u' :: 'e' :: rest => some (.bool true, rest)
    | 'f' :: 'a' :: 'l' :: 's' :: 'e' :: rest => some (.bool false, rest)
    | '"' :: rest => (parseJStrAux rest []).map (fun p => (Json.str ⟨p.1⟩, p.2))
    | '[' :: rest => parseArrBody fuel rest
    | '{' :: rest => parseObjBody fuel rest
    | rest => (parseNum rest).map (fun p => (Json.num p.1.1 p.1.2, p.2))

/-- Array body after `[`. -/
def parseArrBody : Nat → List Char → Option (Json × List Char)
  | 0, _ => none
  | fuel + 1, cs =>
    match skipWsJ cs with
    | ']' :: rest => some (.arr .nil, rest)
    | rest => parseArrItems fuel rest []

/-- Array items: value, then `,` and more items or `]`. -/
def parseArrItems : Nat → List Char → List Json → Option (Json × List Char)
  | 0, _, _ => none
  | fuel + 1, cs, acc =>
    match parseVal fuel cs with
    | none => none
    | some (v, rest) =>
      match skipWsJ rest with
      | ',' :: rest2 => parseArrItems fuel rest2 (v :: acc)
      | ']' :: rest2 => some (.arr (listToArr (v :: acc).reverse), rest2)
      | _ => none

/-- Object body after `{`. -/
def parseObjBody : Nat → List Char → Option (Json × List Char)
  | 0, _ => none
  | fuel + 1, cs =>
    match skipWsJ cs with
    | '}' :: rest => some (.obj .nil, rest)
    | rest => parseObjItems fuel rest []

/-- Object members: `"key": value`, then `,` and more members or `}`.
Pairs are inserted with `dict` semantics. -/
def parseObjItems : Nat → List Char → Record → Option (Json × List Char)
  | 0, _, _ => none
  | fuel + 1, cs, acc =>
    match skipWsJ cs with
    | '"' :: rest =>
      match parseJStrAux rest [] with
      | none => none
      | some (key, rest1) =>
        match skipWsJ rest1 with
        | ':' :: rest2 =>
          match parseVal fuel rest2 with
          | none => none
          | some (v, rest3) =>
            let acc2 := dictInsert acc ⟨key⟩ v
            match skipWsJ rest3 with
            | ',' :: rest4 => parseObjItems fuel rest4 acc2
            | '}' :: rest4 => some (.obj (listToObj acc2), rest4)
            | _ => none
        | _ => none
    | _ => none
end

/-- `json.load` on a file content (`JSONConverter`): parse one value and
require only whitespace after it. -/
def jsonParse (content : String) : Except PyErr Json :=
  match parseVal (3 * content.length + 3) content.data with
  | some (v, rest) =>
    if (skipWsJ rest).isEmpty then .ok v
    else .error (.valueError "Extra data")
  | none => .error (.valueError "Expecting value")

/-- The parsed document as a dataset.  Python's `readData` returns the
document as-is and a non-array-of-objects shape only blows up later
inside `cleanData` (`.items()` on a non-dict); the model surfaces that
uncaught error at read time. -/
def jsonToDataset : Json → Except PyErr Dataset
  | .arr xs => (arrToList xs).mapM (fun x => match x with
      | .obj fs => Except.ok (objToList fs)
      | _ => Except.error (.typeError "record is not an object"))
  | _ => .error (.typeError "document is not an array")

/-- `JSONConverter.readData` (`src/Main.py` lines 79–82). -/
def jsonReadData (fs : FS) (p : String) : Except PyErr Dataset :=
  match fs p with
  | none => .error (.fileNotFound p)
  | some c =>
    match jsonParse c with
    | .error e => .error e
    | .ok v => jsonToDataset v

/-- The body of `JSONConverter.validateFormat` before the bare `except:`
(`src/Main.py` lines 95–98). -/
def jsonValidateBody (fs : FS) (p : String) : Except PyErr Bool :=
  match fs p with
  | none => .error (.fileNotFound p)
  | some c =>
    match jsonParse c with
    | .ok _ => .ok true
    | .error e => .error e

/-- `JSONConverter.validateFormat` (`src/Main.py` lines 94–100). -/
def jsonValidateFormat (fs : FS) (p : String) : Bool :=
  match jsonValidateBody fs p with
  | .ok b => b
  | .error _ => false

/-! ## JSON serialization

Modelled from `json.dump(data, file, indent=4, ensure_ascii=False)`:
4-space indentation, `", "`-free item separators (comma, newline,
indent), `": "` key separator, non-ASCII characters kept literal.
`numRender` is a decimal rendering of the model's number representation;
the exact text Python's `repr` gives floats is outside the model (the
pipeline under proof only produces strings). -/

/-- Hexadecimal digit characters. -/
def hexDigitChars : List Char := "0123456789abcdef".data

/-- Four-digit lowercase hexadecimal rendering. -/
def hex4 (n : Nat) : String :=
  ⟨[hexDigitChars.getD (n / 4096 % 16) '0', hexDigitChars.getD (n / 256 % 16) '0',
    hexDigitChars.getD (n / 16 % 16) '0', hexDigitChars.getD (n % 16) '0']⟩

/-- JSON string escaping of one character (`ensure_ascii=False`). -/
def escChar (c : Char) : String :=
  if c = '"' then "\\\""
  else if c = '\\' then "\\\\"
  else if c = '\n' then "\\n"
  else if c = '\t' then "\\t"
  else if c = '\r' then "\\r"
  else if c = '\u0008' then "\\b"
  else if c = '\u000C' then "\\f"
  else if c.toNat < 0x20 then "\\u" ++ hex4 c.toNat
  else String.singleton c

/-- A JSON string literal. -/
def jstrQuote (s : String) : String :=
  "\"" ++ String.join (s.data.map escChar) ++ "\""

/-- `n` spaces. -/
def spacesN (n : Nat) : String := ⟨List.replicate n ' '⟩

/-- Decimal rendering of the model's `mantissa × 10 ^ exponent` numbers. -/
def numRender (m e : Int) : String :=
  if e = 0 then toString m else toString m ++ "e" ++ toString e

mutual
/-- Serialize one value at indentation level `lvl`. -/
def dumpVal (lvl : Nat) : Json → String
  | .null => "null"
  | .bool true => "true"
  | .bool false => "false"
  | .num m e => numRender m e
  | .str s => jstrQuote s
  | .arr .nil => "[]"
  | .arr (.cons x xs) =>
    "[\n" ++ dumpArrItems (lvl + 4) (.cons x xs) ++ "\n" ++ spacesN lvl ++ "]"
  | .obj .nil => "\x7b\x7d"
  | .obj (.cons k v fs) =>
    "\x7b\n" ++ dumpObjItems (lvl + 4) (.cons k v fs) ++ "\n" ++ spacesN lvl ++ "\x7d"

/-- Serialize array items, separated by `",\n"`. -/
def dumpArrItems (lvl : Nat) : JsonArr → String
  | .nil => ""
  | .cons x .nil => spacesN lvl ++ dumpVal lvl x
  | .cons x (.cons y ys) =>
    spacesN lvl ++ dumpVal lvl x ++ ",\n" ++ dumpArrItems lvl (.cons y ys)

/-- Serialize object members, separated by `",\n"`. -/
def dumpObjItems (lvl : Nat) : JsonObj → String
  | .nil => ""
  | .cons k v .nil => spacesN lvl ++ jstrQuote k ++ ": " ++ dumpVal lvl v
  | .cons k v (.cons k2 v2 fs) =>
    spacesN lvl ++ jstrQuote k ++ ": " ++ dumpVal lvl v ++ ",\n" ++
      dumpObjItems lvl (.cons k2 v2 fs)
end

/-- `json.dump(· , indent=4, ensure_ascii=False)` of a whole document. -/
def jsonDump (v : Json) : String := dumpVal 0 v

/-- A dataset as the JSON document `json.dump` receives. -/
def datasetToJson (d : Dataset) : Json :=
  .arr (listToArr (d.map (fun r => Json.obj (listToObj r))))

/-- `JSONConverter.writeData` (`src/Main.py` lines 84–92): serialize the
dataset to the output path and return `True`.  (Directory creation is
invisible in the path-to-content file-system model.) -/
def jsonWriteData (data : Dataset) (outputPath : String) (fs : FS) :
    Except PyErr Bool × FS :=
  (.ok true, fsWrite fs outputPath (jsonDump (datasetToJson data)))

/-! ## CSV writing

Modelled from `csv.DictWriter` with the default settings used by the
code: fieldnames from the first record, `extrasaction='raise'` (a record
with a key outside the fieldnames raises `ValueError` before that row is
written), `restval=None` (missing keys yield empty cells), minimal
quoting, `"\r\n"` line terminator.  `csvCellStr` renders the cell values
the cleaned pipeline produces; Python's `str()` text for nested
containers is outside the model. -/

/-- Does a cell need quoting (contains delimiter, quote or newline)? -/
def needsQuote (delim : Char) (s : String) : Bool :=
  s.data.any (fun c => c = delim || c = '"' || c = '\n' || c = '\r')

/-- Minimal quoting of one cell. -/
def quoteCsv (delim : Char) (s : String) : String :=
  if needsQuote delim s then
    "\"" ++ String.join (s.data.map (fun c =>
      if c = '"' then "\"\"" else String.singleton c)) ++ "\""
  else s

/-- The text `csv.writer` puts in a cell for a value (`None` becomes the
empty cell). -/
def csvCellStr : Json → String
  | .str s => s
  | .null => ""
  | .bool true => "True"
  | .bool false => "False"
  | .num m e => numRender m e
  | .arr xs => dumpVal 0 (.arr xs)
  | .obj fs => dumpVal 0 (.obj fs)

/-- Join strings with a separator. -/
def joinSep (sep : String) : List String → String
  | [] => ""
  | [x] => x
  | x :: y :: ys => x ++ sep ++ joinSep sep (y :: ys)

/-- One physical CSV line for a list of cells. -/
def rowLine (delim : Char) (cells : List String) : String :=
  joinSep (String.singleton delim) (cells.map (quoteCsv delim)) ++ "\r\n"

/-- `DictWriter._dict_to_list`: raise for keys outside the fieldnames,
otherwise the cells in fieldname order (missing keys → restval). -/
def dictToRow (fieldnames : List String) (r : Record) : Except PyErr (List String) :=
  if r.any (fun kv => !fieldnames.contains kv.1) then
    .error (.valueError "dict contains fields not in fieldnames")
  else
    .ok (fieldnames.map (fun k => match recFind r k with
      | some v => csvCellStr v
      | none => ""))

/-- `DictWriter.writerows`: the text of the rows written before any
failure, and the error if a record had extra keys. -/
def csvWriteRows (delim : Char) (fieldnames : List String) :
    List Record → String × Option PyErr
  | [] => ("", none)
  | r :: rs =>
    match dictToRow fieldnames r with
    | .error e => ("", some e)
    | .ok row =>
      let tail := csvWriteRows delim fieldnames rs
      (rowLine delim row ++ tail.1, tail.2)

/-- `CSVConverter.writeData` (`src/Main.py` lines 52–65): `False` and no
write for an empty dataset; otherwise open truncates the file, the
header and rows written so far stay on disk, and a record with extra
keys raises mid-write. -/
def csvWriteData (delim : Char) (data : Dataset) (outputPath : String) (fs : FS) :
    Except PyErr Bool × FS :=
  match data with
  | [] => (.ok false, fs)
  | first :: _ =>
    let fieldnames := first.map (fun q => q.1)
    let body := csvWriteRows delim fieldnames data
    let content := rowLine delim fieldnames ++ body.1
    match body.2 with
    | some e => (.error e, fsWrite fs outputPath content)
    | none => (.ok true, fsWrite fs outputPath content)

/-! ## The dispatcher (`FileConverter`) -/

/-- `os.path.splitext(path)[1]`: the extension of the last path
component, empty when the only dot(s) lead the component. -/
def extOf (path : String) : String :=
  let base := (path.data.reverse.takeWhile (fun c => c ≠ '/')).reverse
  let afterLast := (base.reverse.takeWhile (fun c => c ≠ '.')).reverse
  if base.contains '.' then
    let beforeDot := base.take (base.length - afterLast.length - 1)
    if beforeDot.any (fun c => c ≠ '.') then ⟨'.' :: afterLast⟩ else ""
  else ""

/-- `os.path.splitext(filePath)[1].lower()` (`src/Main.py` line 160). -/
def lowerExt (path : String) : String := ⟨pyLowerL (extOf path).data⟩

/-- Which concrete converter a path gets. -/
inductive ConvKind where
  | csv : ConvKind
  | json : ConvKind
deriving DecidableEq

/-- `FileConverter.getConverter` (`src/Main.py` lines 158–166), fused
with `DataConverter.__init__` (lines 20–24): dispatch on the lowercased
extension, then the constructor raises `FileNotFoundError` when the path
— input or output alike — does not exist. -/
def getConverter (fs : FS) (p : String) : Except PyErr ConvKind :=
  if lowerExt p = ".csv" then
    if (fs p).isSome then .ok .csv else .error (.fileNotFound p)
  else if lowerExt p = ".json" then
    if (fs p).isSome then .ok .json else .error (.fileNotFound p)
  else .error (.valueError ("Formato no compatible: " ++ lowerExt p))

/-- Dynamic dispatch of `validateFormat`. -/
def validateFormat (k : ConvKind) (fs : FS) (p : String) : Bool :=
  match k with
  | .csv => csvValidateFormat ',' fs p
  | .json => jsonValidateFormat fs p

/-- Dynamic dispatch of `readData`. -/
def readData (k : ConvKind) (fs : FS) (p : String) : Except PyErr Dataset :=
  match k with
  | .csv => csvReadData ',' fs p
  | .json => jsonReadData fs p

/-- Dynamic dispatch of `writeData`. -/
def writeData (k : ConvKind) (data : Dataset) (p : String) (fs : FS) :
    Except PyErr Bool × FS :=
  match k with
  | .csv => csvWriteData ',' data p fs
  | .json => jsonWriteData data p fs

/-- `FileConverter.convert` (`src/Main.py` lines 169–182): existence
check, input dispatch (with the constructor's existence check), format
validation, read, clean, output dispatch (again with the constructor's
existence check), write. -/
def convert (inputPath outputPath : String) (fs : FS) : Except PyErr Bool × FS :=
  if (fs inputPath).isNone then
    (.error (.fileNotFound inputPath), fs)
  else
    match getConverter fs inputPath with
    | .error e => (.error e, fs)
    | .ok inKind =>
      if !validateFormat inKind fs inputPath then
        (.error (.valueError "Formato de entrada inválido"), fs)
      else
        match readData inKind fs inputPath with
        | .error e => (.error e, fs)
        | .ok data =>
          match getConverter fs outputPath with
          | .error e => (.error e, fs)
          | .ok outKind => writeData outKind (cleanData data) outputPath fs

/-- The sanitized-key pattern `[a-z0-9_]+` of the spec's invariant
(§3): non-empty and built from `keyChars` only. -/
def matchesKeyPat (s : String) : Bool :=
  !s.isEmpty && s.data.all (fun c => keyChars.contains c)

/-- Concatenation of a list of strings. -/
def concatAll : List String → String
  | [] => ""
  | x :: xs => x ++ concatAll xs

/-- The reference text `CSVConverter.writeData` produces for a dataset
whose records all stay within the first record's keys: a header line
from the first record's keys, then one line per record with that
record's values in header order (missing keys → empty cells). -/
def csvText (delim : Char) (first : Record) (rest : List Record) : String :=
  rowLine delim (first.map (fun q => q.1)) ++
  concatAll ((first :: rest).map (fun r =>
    rowLine delim ((first.map (fun q => q.1)).map (fun k =>
      match recFind r k with
      | some v => csvCellStr v
      | none => ""))))

/-- A character that is its own NFD decomposition and is not a
combining mark (proof device: the characters `removeAccents` can
output). -/
def plainChar (c : Char) : Bool :=
  (nfdTable.find? (fun q => q.1 = c)).isNone && !isMn c

/-- Is a value `None` or the empty string (the values the cleaning
invariant forbids)? -/
def isNullOrEmpty (v : Json) : Bool :=
  match v with
  | .null => true
  | .str s => s = ""
  | _ => false

/-! ## Finite facts about the character tables -/

theorem nfdTable_decomp_not_key :
    nfdTable.all (fun p => p.2.all (fun c =>
      (nfdTable.find? (fun q => q.1 = c)).isNone)) = true := by decide

theorem lowerTable_val_not_key :
    lowerTable.all (fun p =>
      (lowerTable.find? (fun q => q.1 = p.2)).isNone) = true := by decide

theorem lowerTable_plain_val :
    lowerTable.all (fun p => (nfdTable.find? (fun q => q.1 = p.1)).isSome ||
      ((nfdTable.find? (fun q => q.1 = p.2)).isNone && !isMn p.2)) = true := by decide

theorem wordChars_lower_in_keyChars :
    wordChars.all (fun c => keyChars.contains (pyLower c)) = true := by decide

theorem keyChars_facts :
    keyChars.all (fun c => ((nfdTable.find? (fun q => q.1 = c)).isNone && !isMn c)
      && (wordChars.contains c && (lowerTable.find? (fun q => q.1 = c)).isNone))
      = true := by decide

theorem underscore_in_wordChars : wordChars.contains '_' = true := by decide

/-! ## removeAccents -/

theorem nfd_of_plain {c : Char} (h : plainChar c = true) : nfd c = [c] := by
  rw [plainChar, Bool.and_eq_true] at h
  rw [nfd, Option.isNone_iff_eq_none.mp h.1]

theorem mem_nfd_plain {c c' : Char} (hm : c' ∈ nfd c) (hmn : isMn c' = false) :
    plainChar c' = true := by
  rw [plainChar, Bool.and_eq_true, hmn]
  refine ⟨?_, rfl⟩
  rw [nfd] at hm
  cases h : nfdTable.find? (fun q => q.1 = c) with
  | none =>
    rw [h] at hm
    simp only [List.mem_singleton] at hm
    subst hm
    rw [h]
    rfl
  | some p =>
    rw [h] at hm
    have hp : p ∈ nfdTable := List.mem_of_find?_eq_some h
    have h1 := List.all_eq_true.mp nfdTable_decomp_not_key p hp
    exact List.all_eq_true.mp h1 c' hm

theorem mem_removeAccentsL_plain {cs : List Char} {c : Char}
    (h : c ∈ removeAccentsL cs) : plainChar c = true := by
  rw [removeAccentsL, List.mem_filter] at h
  obtain ⟨h1, h2⟩ := h
  rw [List.mem_flatMap] at h1
  obtain ⟨a, _, hm⟩ := h1
  exact mem_nfd_plain hm (by revert h2; cases isMn c <;> simp)

theorem flatMap_eq_self {α : Type} {f : α → List α} {l : List α}
    (h : ∀ x ∈ l, f x = [x]) : l.flatMap f = l := by
  induction l with
  | nil => rfl
  | cons a l ih =>
    rw [List.flatMap_cons, h a (List.mem_cons_self a l),
      ih (fun x hx => h x (List.mem_cons_of_mem a hx)), List.singleton_append]

theorem removeAccentsL_of_plain {cs : List Char}
    (h : ∀ c ∈ cs, plainChar c = true) : removeAccentsL cs = cs := by
  rw [removeAccentsL, flatMap_eq_self (fun c hc => nfd_of_plain (h c hc))]
  refine List.filter_eq_self.mpr (fun c hc => ?_)
  have h2 := h c hc
  rw [plainChar, Bool.and_eq_true] at h2
  exact h2.2

theorem removeAccentsL_idem (cs : List Char) :
    removeAccentsL (removeAccentsL cs) = removeAccentsL cs :=
  removeAccentsL_of_plain (fun _ hc => mem_removeAccentsL_plain hc)

/-! ## pyLower -/

theorem pyLower_plain {c : Char} (h : plainChar c = true) :
    plainChar (pyLower c) = true := by
  rw [pyLower]
  cases hf : lowerTable.find? (fun q => q.1 = c) with
  | none => exact h
  | some p =>
    have hp : p ∈ lowerTable := List.mem_of_find?_eq_some hf
    have hkey0 := List.find?_some hf
    have hkey : p.1 = c := of_decide_eq_true hkey0
    have hfact := List.all_eq_true.mp lowerTable_plain_val p hp
    rw [Bool.or_eq_true] at hfact
    cases hfact with
    | inl hs =>
      exfalso
      rw [plainChar, Bool.and_eq_true] at h
      rw [hkey, Option.isNone_iff_eq_none.mp h.1] at hs
      exact Bool.false_ne_true hs
    | inr h2 => exact h2

theorem pyLower_of_not_key {c : Char}
    (h : (lowerTable.find? (fun q => q.1 = c)).isNone = true) : pyLower c = c := by
  rw [pyLower, Option.isNone_iff_eq_none.mp h]

theorem pyLower_idem (c : Char) : pyLower (pyLower c) = pyLower c := by
  cases hf : lowerTable.find? (fun q => q.1 = c) with
  | none =>
    have hc : pyLower c = c := by rw [pyLower, hf]
    rw [hc, hc]
  | some p =>
    have hp : p ∈ lowerTable := List.mem_of_find?_eq_some hf
    have h1 := List.all_eq_true.mp lowerTable_val_not_key p hp
    have hc : pyLower c = p.2 := by rw [pyLower, hf]
    rw [hc, pyLower_of_not_key h1]

/-! ## pyStrip -/

theorem dropWhile_head_false {α : Type} {p : α → Bool} {l : List α} {c : α}
    {tl : List α} (h : l.dropWhile p = c :: tl) : p c = false := by
  induction l with
  | nil => exact absurd h (by simp [List.dropWhile])
  | cons a l ih =>
    rw [List.dropWhile_cons] at h
    by_cases hp : p a = true
    · rw [if_pos hp] at h
      exact ih h
    · rw [if_neg hp] at h
      cases h
      exact Bool.not_eq_true _ |>.mp hp

theorem dropWhile_idem {α : Type} (p : α → Bool) (l : List α) :
    (l.dropWhile p).dropWhile p = l.dropWhile p := by
  cases h : l.dropWhile p with
  | nil => rfl
  | cons c tl =>
    rw [List.dropWhile_cons, if_neg]
    rw [dropWhile_head_false h]
    exact Bool.false_ne_true

theorem getLast?_dropWhile {α : Type} (p : α → Bool) (l : List α) :
    l.dropWhile p = [] ∨ (l.dropWhile p).getLast? = l.getLast? := by
  induction l with
  | nil => exact Or.inl rfl
  | cons a l ih =>
    rw [List.dropWhile_cons]
    by_cases hp : p a = true
    · rw [if_pos hp]
      cases l with
      | nil => exact Or.inl rfl
      | cons b bs =>
        cases ih with
        | inl h => exact Or.inl h
        | inr h => exact Or.inr (by rw [h, List.getLast?_cons_cons])
    · rw [if_neg hp]
      exact Or.inr rfl

theorem mem_dropWhile {α : Type} {p : α → Bool} {l : List α} {a : α}
    (h : a ∈ l.dropWhile p) : a ∈ l :=
  List.Sublist.mem h (List.dropWhile_sublist p)

theorem mem_pyStripL {cs : List Char} {c : Char} (h : c ∈ pyStripL cs) : c ∈ cs := by
  rw [pyStripL, List.mem_reverse] at h
  have h1 := mem_dropWhile h
  rw [List.mem_reverse] at h1
  exact mem_dropWhile h1

theorem dropWhile_eq_self_of_head {α : Type} {p : α → Bool} {l : List α} {a : α}
    (hh : l.head? = some a) (hp : p a = false) : l.dropWhile p = l := by
  cases l with
  | nil => exact absurd hh (by simp)
  | cons x xs =>
    have hx : x = a := by simpa using hh
    rw [List.dropWhile_cons, hx, hp]
    simp

theorem pyStripL_no_leading_ws (u : List Char) :
    (pyStripL u).dropWhile isPyWs = pyStripL u := by
  have hgoal : pyStripL u = ((u.dropWhile isPyWs).reverse.dropWhile isPyWs).reverse := rfl
  cases ha : u.dropWhile isPyWs with
  | nil => rw [hgoal, ha]; rfl
  | cons a0 atl =>
    have ha0 : isPyWs a0 = false := dropWhile_head_false ha
    cases hb : (u.dropWhile isPyWs).reverse.dropWhile isPyWs with
    | nil => rw [hgoal, hb]; rfl
    | cons x xs =>
      have hbl : ((u.dropWhile isPyWs).reverse.dropWhile isPyWs).getLast? = some a0 := by
        cases getLast?_dropWhile isPyWs (u.dropWhile isPyWs).reverse with
        | inl h => rw [h] at hb; exact absurd hb (by simp)
        | inr h => rw [h, List.getLast?_reverse, ha]; rfl
      have hh : (pyStripL u).head? = some a0 := by
        rw [hgoal, List.head?_reverse]; exact hbl
      exact dropWhile_eq_self_of_head hh ha0

theorem pyStripL_idem (cs : List Char) : pyStripL (pyStripL cs) = pyStripL cs := by
  have h1 := pyStripL_no_leading_ws cs
  show (((pyStripL cs).dropWhile isPyWs).reverse.dropWhile isPyWs).reverse = pyStripL cs
  rw [h1]
  show ((((cs.dropWhile isPyWs).reverse.dropWhile isPyWs).reverse).reverse.dropWhile
      isPyWs).reverse = pyStripL cs
  rw [List.reverse_reverse, dropWhile_idem]
  rfl

/-! ## Idempotence of the normalizers -/

theorem normalizeText_data (s : String) :
    (normalizeText s).data = pyStripL (pyLowerL (removeAccentsL s.data)) := rfl

theorem normalizeText_idem (s : String) :
    normalizeText (normalizeText s) = normalizeText s := by
  have hplain : ∀ c ∈ (normalizeText s).data, plainChar c = true := by
    intro c hc
    rw [normalizeText_data] at hc
    have h1 : c ∈ pyLowerL (removeAccentsL s.data) := mem_pyStripL hc
    rw [pyLowerL, List.mem_map] at h1
    obtain ⟨a, ha, rfl⟩ := h1
    exact pyLower_plain (mem_removeAccentsL_plain ha)
  have hra : removeAccentsL (normalizeText s).data = (normalizeText s).data :=
    removeAccentsL_of_plain hplain
  have hlw : pyLowerL (normalizeText s).data = (normalizeText s).data := by
    have hpt : ∀ c ∈ (normalizeText s).data, pyLower c = id c := by
      intro c hc
      rw [normalizeText_data] at hc
      have h1 : c ∈ pyLowerL (removeAccentsL s.data) := mem_pyStripL hc
      rw [pyLowerL, List.mem_map] at h1
      obtain ⟨a, ha, rfl⟩ := h1
      exact pyLower_idem a
    rw [pyLowerL, List.map_congr_left hpt, List.map_id]
  show String.mk (pyStripL (pyLowerL (removeAccentsL (normalizeText s).data)))
      = normalizeText s
  rw [hra, hlw, normalizeText_data, pyStripL_idem]
  rfl

theorem normalizeKey_data (s : String) :
    (normalizeKey s).data = pyLowerL (regexSubL (removeAccentsL s.data)) := rfl

theorem keyChars_contains_of_mem_normalizeKey {s : String} {c : Char}
    (h : c ∈ (normalizeKey s).data) : keyChars.contains c = true := by
  rw [normalizeKey_data, pyLowerL, List.mem_map] at h
  obtain ⟨b, hb, rfl⟩ := h
  rw [regexSubL, List.mem_map] at hb
  obtain ⟨a, _, rfl⟩ := hb
  have hw : (if wordChars.contains a = true then a else '_') ∈ wordChars := by
    by_cases hca : wordChars.contains a = true
    · rw [if_pos hca]; simpa using hca
    · rw [if_neg hca]; simpa using underscore_in_wordChars
  exact List.all_eq_true.mp wordChars_lower_in_keyChars _ hw

theorem keyChar_plain {c : Char} (h : keyChars.contains c = true) :
    plainChar c = true := by
  have hm : c ∈ keyChars := by simpa using h
  have hf := List.all_eq_true.mp keyChars_facts c hm
  rw [Bool.and_eq_true, Bool.and_eq_true, Bool.and_eq_true] at hf
  rw [plainChar, Bool.and_eq_true]
  exact hf.1

theorem normalizeKey_fix_of_keyChars {s : String}
    (h : ∀ c ∈ s.data, keyChars.contains c = true) : normalizeKey s = s := by
  have hra : removeAccentsL s.data = s.data :=
    removeAccentsL_of_plain (fun c hc => keyChar_plain (h c hc))
  have hrs : regexSubL s.data = s.data := by
    rw [regexSubL]
    have hpt : ∀ c ∈ s.data, (if wordChars.contains c = true then c else '_') = id c := by
      intro c hc
      have hm : c ∈ keyChars := by simpa using h c hc
      have hf := List.all_eq_true.mp keyChars_facts c hm
      rw [Bool.and_eq_true, Bool.and_eq_true, Bool.and_eq_true] at hf
      rw [if_pos hf.2.1]
      rfl
    rw [List.map_congr_left hpt, List.map_id]
  have hlw : pyLowerL s.data = s.data := by
    rw [pyLowerL]
    have hpt : ∀ c ∈ s.data, pyLower c = id c := by
      intro c hc
      have hm : c ∈ keyChars := by simpa using h c hc
      have hf := List.all_eq_true.mp keyChars_facts c hm
      rw [Bool.and_eq_true, Bool.and_eq_true, Bool.and_eq_true] at hf
      exact pyLower_of_not_key hf.2.2
    rw [List.map_congr_left hpt, List.map_id]
  show String.mk (pyLowerL (regexSubL (removeAccentsL s.data))) = s
  rw [hra, hrs, hlw]

theorem normalizeKey_idem (s : String) :
    normalizeKey (normalizeKey s) = normalizeKey s :=
  normalizeKey_fix_of_keyChars (fun _ hc => keyChars_contains_of_mem_normalizeKey hc)

/-! ## cleanValue -/

theorem cleanValue_str (s : String) :
    cleanValue (Json.str s) =
      (if normalizeText s = "" then Json.str "n/a" else Json.str (normalizeText s)) := by
  show substSentinel (Json.str (normalizeText s)) = _
  by_cases h : normalizeText s = ""
  · simp [substSentinel, h]
  · simp [substSentinel, h]

theorem normalizeText_na : normalizeText "n/a" = "n/a" := by decide

theorem cleanValue_idem (v : Json) : cleanValue (cleanValue v) = cleanValue v := by
  cases v with
  | null => rfl
  | str s =>
    rw [cleanValue_str]
    by_cases h : normalizeText s = ""
    · rw [if_pos h]
      rfl
    · rw [if_neg h, cleanValue_str, normalizeText_idem, if_neg h]
  | bool b => rfl
  | num m e => rfl
  | arr xs => rfl
  | obj fs => rfl

theorem cleanValue_not_nullOrEmpty (v : Json) :
    isNullOrEmpty (cleanValue v) = false := by
  cases v with
  | null => rfl
  | str s =>
    rw [cleanValue_str]
    by_cases h : normalizeText s = ""
    · rw [if_pos h]
      rfl
    · rw [if_neg h]
      simp [isNullOrEmpty, h]
  | bool b => rfl
  | num m e => rfl
  | arr xs => rfl
  | obj fs => rfl

/-! ## recFind and dictInsert -/

theorem recFind_cons_self (r : Record) (k : String) (v : Json) :
    recFind ((k, v) :: r) k = some v := by
  simp [recFind, List.find?_cons]

theorem recFind_cons_ne {k k' : String} (h : ¬(k = k')) (r : Record) (v : Json) :
    recFind ((k, v) :: r) k' = recFind r k' := by
  simp [recFind, List.find?_cons, h]

theorem recFind_filter_ne {r : Record} {nk k : String} (h : ¬(k = nk)) :
    recFind (r.filter (fun q => q.1 ≠ nk)) k = recFind r k := by
  induction r with
  | nil => rfl
  | cons p r ih =>
    obtain ⟨pk, pv⟩ := p
    rw [List.filter_cons]
    by_cases hp : pk = nk
    · have hcond : (decide ((pk, pv).1 ≠ nk)) = false := by simp [hp]
      rw [hcond, if_neg Bool.false_ne_true, ih]
      have hpk : ¬(pk = k) := fun he => h (he ▸ hp)
      rw [recFind_cons_ne hpk]
    · have hcond : (decide ((pk, pv).1 ≠ nk)) = true := by simp [hp]
      rw [hcond, if_pos rfl]
      by_cases hk : pk = k
      · rw [hk, recFind_cons_self, recFind_cons_self]
      · rw [recFind_cons_ne hk, recFind_cons_ne hk, ih]

theorem mem_dictInsert {d : Record} {k : String} {v : Json} {x : String × Json}
    (h : x ∈ dictInsert d k v) : x ∈ d ∨ x = (k, v) := by
  rw [dictInsert] at h
  by_cases ha : d.any (fun p => p.1 = k) = true
  · rw [if_pos ha, List.mem_map] at h
    obtain ⟨p, hp, he⟩ := h
    by_cases hpk : p.1 = k
    · rw [if_pos hpk] at he
      exact Or.inr he.symm
    · rw [if_neg hpk] at he
      exact Or.inl (he ▸ hp)
  · rw [if_neg ha, List.mem_append] at h
    cases h with
    | inl h2 => exact Or.inl h2
    | inr h2 => exact Or.inr (by simpa using h2)

theorem any_key_map_overwrite (acc : Record) (nk : String) (cv : Json) (t : String) :
    (acc.map (fun p => if p.1 = nk then (nk, cv) else p)).any (fun p => p.1 = t)
      = acc.any (fun p => p.1 = t) := by
  induction acc with
  | nil => rfl
  | cons p rest ih =>
    rw [List.map_cons, List.any_cons, List.any_cons, ih]
    by_cases hp : p.1 = nk
    · rw [if_pos hp]
      simp [hp]
    · rw [if_neg hp]

/-! ## The refinement step: one dictInsert against the spec record -/

theorem mergeSpec_empty (acc : Record) : mergeSpec acc [] = acc := by
  rw [mergeSpec]
  have h1 : acc.map (updBy []) = acc := by
    have hpt : ∀ p ∈ acc, updBy [] p = id p := fun p _ => rfl
    rw [List.map_congr_left hpt, List.map_id]
  rw [h1]
  show acc ++ [] = acc
  rw [List.append_nil]

theorem mergeSpec_nil (spec : Record) : mergeSpec [] spec = spec := by
  rw [mergeSpec]
  show ([] : Record) ++ spec.filter _ = spec
  rw [List.nil_append]
  exact List.filter_eq_self.mpr (fun q _ => rfl)

theorem mergeSpec_dictInsert (acc S : Record) (nk : String) (cv : Json) :
    mergeSpec (dictInsert acc nk cv) S
      = mergeSpec acc (match recFind S nk with
          | some w => (nk, w) :: S.filter (fun q => q.1 ≠ nk)
          | none => (nk, cv) :: S) := by
  rw [dictInsert]
  by_cases hA : acc.any (fun p => p.1 = nk) = true
  · rw [if_pos hA]
    cases hF : recFind S nk with
    | some w =>
      rw [mergeSpec, mergeSpec]
      congr 1
      · rw [List.map_map]
        apply List.map_congr_left
        intro p hp
        show updBy S (if p.1 = nk then (nk, cv) else p)
            = updBy ((nk, w) :: S.filter (fun q => q.1 ≠ nk)) p
        by_cases hpk : p.1 = nk
        · rw [if_pos hpk, updBy, updBy, hF]
          rw [hpk, recFind_cons_self]
        · rw [if_neg hpk, updBy, updBy, recFind_cons_ne (fun he => hpk he.symm),
            recFind_filter_ne hpk]
      · rw [List.filter_cons]
        have hc : (!acc.any (fun p => p.1 = (nk, w).1)) = false := by
          simp only [hA, Bool.not_true]
        rw [hc, if_neg Bool.false_ne_true, List.filter_filter]
        apply List.filter_congr
        intro q _
        rw [any_key_map_overwrite]
        by_cases hq : q.1 = nk
        · rw [hq, hA]
          simp
        · have h3 : decide (q.1 ≠ nk) = true := decide_eq_true hq
          rw [h3, Bool.and_true]
    | none =>
      rw [mergeSpec, mergeSpec]
      congr 1
      · rw [List.map_map]
        apply List.map_congr_left
        intro p hp
        show updBy S (if p.1 = nk then (nk, cv) else p) = updBy ((nk, cv) :: S) p
        by_cases hpk : p.1 = nk
        · rw [if_pos hpk, updBy, updBy, hF]
          rw [hpk, recFind_cons_self]
        · rw [if_neg hpk, updBy, updBy, recFind_cons_ne (fun he => hpk he.symm)]
      · rw [List.filter_cons]
        have hc : (!acc.any (fun p => p.1 = (nk, cv).1)) = false := by
          simp only [hA, Bool.not_true]
        rw [hc, if_neg Bool.false_ne_true]
        apply List.filter_congr
        intro q _
        rw [any_key_map_overwrite]
  · have hA' : acc.any (fun p => p.1 = nk) = false := by
      revert hA; cases acc.any (fun p => p.1 = nk) <;> simp
    have hnotmem : ∀ p ∈ acc, ¬(p.1 = nk) := by
      intro p hp he
      exact List.any_eq_false.mp hA' p hp (decide_eq_true he)
    rw [if_neg hA]
    cases hF : recFind S nk with
    | some w =>
      rw [mergeSpec, mergeSpec, List.map_append]
      have hsingle : ([(nk, cv)] : Record).map (updBy S) = [(nk, w)] := by
        show [updBy S (nk, cv)] = [(nk, w)]
        rw [updBy, hF]
      rw [hsingle]
      have hmap : acc.map (updBy S)
          = acc.map (updBy ((nk, w) :: S.filter (fun q => q.1 ≠ nk))) := by
        apply List.map_congr_left
        intro p hp
        have hpk := hnotmem p hp
        rw [updBy, updBy, recFind_cons_ne (fun he => hpk he.symm),
          recFind_filter_ne hpk]
      rw [hmap]
      rw [List.filter_cons]
      have hc : (!acc.any (fun p => p.1 = (nk, w).1)) = true := by
        simp only [hA', Bool.not_false]
      rw [hc, if_pos rfl, List.filter_filter]
      have hfil : S.filter (fun q => !(acc ++ [(nk, cv)]).any (fun p => p.1 = q.1))
          = S.filter (fun q => (!acc.any (fun p => p.1 = q.1)) && (decide (q.1 ≠ nk))) := by
        apply List.filter_congr
        intro q _
        rw [List.any_append]
        have hone : ([(nk, cv)] : Record).any (fun p => p.1 = q.1) = decide (nk = q.1) := by
          simp [List.any_cons]
        rw [hone]
        by_cases hq : q.1 = nk
        · have h2 : decide (nk = q.1) = true := decide_eq_true hq.symm
          have h3 : decide (q.1 ≠ nk) = false := by
            apply decide_eq_false
            simp [hq]
          rw [h2, h3, Bool.or_true, Bool.and_false]
          rfl
        · have h2 : decide (nk = q.1) = false := by
            apply decide_eq_false
            intro he
            exact hq he.symm
          have h3 : decide (q.1 ≠ nk) = true := decide_eq_true hq
          rw [h2, h3, Bool.or_false, Bool.and_true]
      rw [hfil, List.append_assoc, List.singleton_append]
    | none =>
      rw [mergeSpec, mergeSpec, List.map_append]
      have hsingle : ([(nk, cv)] : Record).map (updBy S) = [(nk, cv)] := by
        show [updBy S (nk, cv)] = [(nk, cv)]
        rw [updBy, hF]
      rw [hsingle]
      have hmap : acc.map (updBy S) = acc.map (updBy ((nk, cv) :: S)) := by
        apply List.map_congr_left
        intro p hp
        have hpk := hnotmem p hp
        rw [updBy, updBy, recFind_cons_ne (fun he => hpk he.symm)]
      rw [hmap]
      rw [List.filter_cons]
      have hc : (!acc.any (fun p => p.1 = (nk, cv).1)) = true := by
        simp only [hA', Bool.not_false]
      rw [hc, if_pos rfl]
      have hSnk : ∀ q ∈ S, ¬(q.1 = nk) := by
        intro q hq he
        have h1 : (S.find? (fun p => p.1 = nk)).map (fun p => p.2) = none := hF
        cases hfind : S.find? (fun p => p.1 = nk) with
        | none =>
          have := List.find?_eq_none.mp hfind q hq
          exact this (decide_eq_true he)
        | some p => rw [hfind] at h1; exact absurd h1 (by simp)
      have hfil : S.filter (fun q => !(acc ++ [(nk, cv)]).any (fun p => p.1 = q.1))
          = S.filter (fun q => !acc.any (fun p => p.1 = q.1)) := by
        apply List.filter_congr
        intro q hq
        rw [List.any_append]
        have hone : ([(nk, cv)] : Record).any (fun p => p.1 = q.1) = false := by
          have h2 : decide (nk = q.1) = false := by
            apply decide_eq_false
            intro he
            exact hSnk q hq he.symm
          rw [List.any_cons]
          show (decide (nk = q.1) || List.any [] _) = false
          rw [h2]
          rfl
        rw [hone, Bool.or_false]
      rw [hfil, List.append_assoc, List.singleton_append]

theorem cleanValueSpec_eq (v : Json) : cleanValueSpec v = cleanValue v := by
  cases v with
  | null => rfl
  | str s => rw [cleanValue_str]; rfl
  | bool b => rfl
  | num m e => rfl
  | arr xs => rfl
  | obj fs => rfl

theorem foldl_clean_eq_merge (item : Record) : ∀ acc : Record,
    item.foldl (fun a kv => dictInsert a (normalizeKey kv.1) (cleanValue kv.2)) acc
      = mergeSpec acc (cleanRecordSpec item) := by
  induction item with
  | nil =>
    intro acc
    rw [List.foldl_nil, cleanRecordSpec, mergeSpec_empty]
  | cons kv rest ih =>
    intro acc
    obtain ⟨k, v⟩ := kv
    rw [List.foldl_cons, ih (dictInsert acc (normalizeKey k) (cleanValue v)),
      mergeSpec_dictInsert]
    congr 1
    rw [show cleanRecordSpec ((k, v) :: rest)
        = (match recFind (cleanRecordSpec rest) (normalizeKey k) with
           | some w => (normalizeKey k, w) ::
               (cleanRecordSpec rest).filter (fun q => q.1 ≠ normalizeKey k)
           | none => (normalizeKey k, cleanValueSpec v) :: cleanRecordSpec rest)
      from rfl]
    cases recFind (cleanRecordSpec rest) (normalizeKey k) with
    | some w => rfl
    | none => rw [cleanValueSpec_eq]

/-- C1: `cleanData` equals its reference definition: records are processed
in order; within a record, fields are visited in original order, the key
goes through `normalizeKey`, string values through `normalizeText`
(non-strings as-is), null/empty results become `"n/a"`; field order
follows the original key's first appearance, and when two original keys
normalize to the same sanitized key the later field's value overwrites
the earlier one's. -/
theorem cleanData_eq_spec (d : Dataset) : cleanData d = cleanDataSpec d := by
  rw [cleanData, cleanDataSpec]
  apply List.map_congr_left
  intro item _
  show cleanRecord item = cleanRecordSpec item
  rw [cleanRecord, foldl_clean_eq_merge item [], mergeSpec_nil]

/-! ## Membership and key-distinctness invariants of cleanRecord -/

theorem mem_foldl_clean (item : Record) : ∀ {acc : Record} {x : String × Json},
    x ∈ item.foldl (fun a kv => dictInsert a (normalizeKey kv.1) (cleanValue kv.2)) acc →
    x ∈ acc ∨ ∃ kv, kv ∈ item ∧ x = (normalizeKey kv.1, cleanValue kv.2) := by
  induction item with
  | nil => exact fun h => Or.inl h
  | cons kv rest ih =>
    intro acc x h
    rw [List.foldl_cons] at h
    cases ih h with
    | inl h2 =>
      cases mem_dictInsert h2 with
      | inl h3 => exact Or.inl h3
      | inr h3 => exact Or.inr ⟨kv, List.mem_cons_self kv rest, h3⟩
    | inr h2 =>
      obtain ⟨kv2, hm, he⟩ := h2
      exact Or.inr ⟨kv2, List.mem_cons_of_mem kv hm, he⟩

theorem dictInsert_keys_of_mem {d : Record} {k : String} {v : Json}
    (h : d.any (fun p => p.1 = k) = true) :
    (dictInsert d k v).map Prod.fst = d.map Prod.fst := by
  rw [dictInsert, if_pos h, List.map_map]
  apply List.map_congr_left
  intro p _
  show (if p.1 = k then (k, v) else p).1 = p.1
  by_cases hp : p.1 = k
  · rw [if_pos hp, hp]
  · rw [if_neg hp]

theorem dictInsert_keys_of_not_mem {d : Record} {k : String} {v : Json}
    (h : ¬ d.any (fun p => p.1 = k) = true) :
    (dictInsert d k v).map Prod.fst = d.map Prod.fst ++ [k] := by
  rw [dictInsert, if_neg h, List.map_append]
  rfl

theorem dictInsert_keys_nodup {d : Record} {k : String} {v : Json}
    (h : (d.map Prod.fst).Nodup) : ((dictInsert d k v).map Prod.fst).Nodup := by
  by_cases ha : d.any (fun p => p.1 = k) = true
  · rw [dictInsert_keys_of_mem ha]
    exact h
  · rw [dictInsert_keys_of_not_mem ha, List.nodup_append]
    refine ⟨h, List.nodup_singleton k, ?_⟩
    intro a hma hmb
    rw [List.mem_singleton] at hmb
    subst hmb
    rw [List.mem_map] at hma
    obtain ⟨p, hp, he⟩ := hma
    apply ha
    rw [List.any_eq_true]
    exact ⟨p, hp, decide_eq_true he⟩

theorem foldl_clean_keys_nodup (item : Record) : ∀ acc : Record,
    (acc.map Prod.fst).Nodup →
    ((item.foldl (fun a kv => dictInsert a (normalizeKey kv.1) (cleanValue kv.2))
      acc).map Prod.fst).Nodup := by
  induction item with
  | nil => exact fun acc h => h
  | cons kv rest ih =>
    intro acc h
    rw [List.foldl_cons]
    exact ih _ (dictInsert_keys_nodup h)

theorem foldl_clean_of_fixed (r : Record) : ∀ acc : Record,
    (∀ kv ∈ r, normalizeKey kv.1 = kv.1 ∧ cleanValue kv.2 = kv.2) →
    (r.map Prod.fst).Nodup →
    (∀ kv ∈ r, acc.any (fun p => p.1 = kv.1) = false) →
    r.foldl (fun a kv => dictInsert a (normalizeKey kv.1) (cleanValue kv.2)) acc
      = acc ++ r := by
  induction r with
  | nil =>
    intro acc _ _ _
    rw [List.foldl_nil, List.append_nil]
  | cons kv rest ih =>
    intro acc hfix hnd hdisj
    obtain ⟨hk, hv⟩ := hfix kv (List.mem_cons_self kv rest)
    rw [List.foldl_cons]
    have hstep : dictInsert acc (normalizeKey kv.1) (cleanValue kv.2) = acc ++ [kv] := by
      rw [hk, hv, dictInsert, if_neg]
      intro hcontra
      rw [hdisj kv (List.mem_cons_self kv rest)] at hcontra
      exact Bool.false_ne_true hcontra
    rw [hstep, ih (acc ++ [kv]) (fun kv2 h2 => hfix kv2 (List.mem_cons_of_mem kv h2))
      (by rw [List.map_cons] at hnd; exact hnd.of_cons) ?_,
      List.append_assoc, List.singleton_append]
    intro kv2 h2
    rw [List.any_append, hdisj kv2 (List.mem_cons_of_mem kv h2)]
    have hne : ¬(kv.1 = kv2.1) := by
      rw [List.map_cons] at hnd
      have hnotin := (List.nodup_cons.mp hnd).1
      intro he
      apply hnotin
      rw [he, List.mem_map]
      exact ⟨kv2, h2, rfl⟩
    rw [List.any_cons]
    show (false || (decide (kv.1 = kv2.1) || List.any [] _)) = false
    rw [decide_eq_false hne]
    rfl

theorem cleanRecord_idem (item : Record) :
    cleanRecord (cleanRecord item) = cleanRecord item := by
  have hfix : ∀ kv ∈ cleanRecord item,
      normalizeKey kv.1 = kv.1 ∧ cleanValue kv.2 = kv.2 := by
    intro kv h
    cases mem_foldl_clean item h with
    | inl h2 => exact absurd h2 (List.not_mem_nil kv)
    | inr h2 =>
      obtain ⟨kv2, _, rfl⟩ := h2
      exact ⟨normalizeKey_idem kv2.1, cleanValue_idem kv2.2⟩
  have hnd : ((cleanRecord item).map Prod.fst).Nodup :=
    foldl_clean_keys_nodup item [] (by simp)
  have h := foldl_clean_of_fixed (cleanRecord item) [] hfix hnd (fun kv _ => rfl)
  show (cleanRecord item).foldl
      (fun a kv => dictInsert a (normalizeKey kv.1) (cleanValue kv.2)) [] = cleanRecord item
  rw [h, List.nil_append]

/-- C5: `cleanData` is idempotent — cleaning an already-cleaned dataset
returns it unchanged, because `normalizeKey` and `normalizeText` are
idempotent on their own output and the sentinel `"n/a"` is a fixed point
of value cleaning. -/
theorem cleanData_idempotent (d : Dataset) : cleanData (cleanData d) = cleanData d := by
  rw [cleanData, cleanData, List.map_map]
  apply List.map_congr_left
  intro r _
  exact cleanRecord_idem r

/-- C4 (amended): every key of every cleaned record consists only of
lowercase ASCII letters, digits, and underscores — it matches
`[a-z0-9_]*`, possibly empty — and no value is null/None or the empty
string. -/
theorem cleanData_invariant (d : Dataset) :
    (cleanData d).all (fun r => r.all (fun kv =>
      kv.1.data.all (fun c => keyChars.contains c) && !isNullOrEmpty kv.2)) = true := by
  rw [List.all_eq_true]
  intro r hr
  rw [List.all_eq_true]
  intro kv hkv
  rw [cleanData, List.mem_map] at hr
  obtain ⟨item, _, rfl⟩ := hr
  cases mem_foldl_clean item hkv with
  | inl h2 => exact absurd h2 (List.not_mem_nil kv)
  | inr h2 =>
    obtain ⟨kv2, _, rfl⟩ := h2
    rw [Bool.and_eq_true]
    constructor
    · rw [List.all_eq_true]
      intro c hc
      exact keyChars_contains_of_mem_normalizeKey hc
    · rw [cleanValue_not_nullOrEmpty]
      rfl

/-- C4 counterexample: on a record with an empty original key, the
cleaned key is the empty string, which does not match the non-empty
pattern `[a-z0-9_]+` the claim states; so the claim fails as stated
(its no-null/no-empty-value half still holds). -/
theorem cleanData_empty_key_counterexample :
    cleanData [[("", Json.str "x")]] = [[("", Json.str "x")]] ∧
    matchesKeyPat "" = false := ⟨rfl, rfl⟩

/-- C6: `normalizeKey` first applies `removeAccents`, then replaces every
character outside `[a-zA-Z0-9_]` with an underscore, then lowercases;
non-string input is returned unchanged; and the two worked examples of
the spec hold. -/
theorem normalizeKey_spec :
    (∀ s : String, normalizeKey s =
      ⟨((removeAccents s).data.map
        (fun c => if wordChars.contains c then c else '_')).map pyLower⟩) ∧
    normalizeKeyV Json.null = Json.null ∧
    (∀ b, normalizeKeyV (Json.bool b) = Json.bool b) ∧
    (∀ m e, normalizeKeyV (Json.num m e) = Json.num m e) ∧
    (∀ xs, normalizeKeyV (Json.arr xs) = Json.arr xs) ∧
    (∀ fs, normalizeKeyV (Json.obj fs) = Json.obj fs) ∧
    normalizeKey "Nombre Completo" = "nombre_completo" ∧
    normalizeKey "Año (2023)!" = "ano__2023__" :=
  ⟨fun _ => rfl, rfl, fun _ => rfl, fun _ _ => rfl, fun _ => rfl, fun _ => rfl,
    by decide, by decide⟩

/-- C7: `normalizeText` trims whitespace from the lowercased result of
`removeAccents`; `removeAccents` is the NFD decomposition with every
nonspacing mark dropped, so its output contains no combining marks;
both `normalizeText` and `removeAccents` return non-string input
unchanged; and `normalizeText "  CAFÉ  " = "cafe"`. -/
theorem normalizeText_spec :
    (∀ s : String, normalizeText s = ⟨pyStripL ((removeAccents s).data.map pyLower)⟩) ∧
    (∀ s : String, (removeAccents s).data
      = (s.data.flatMap nfd).filter (fun c => !isMn c)) ∧
    (∀ s : String, (removeAccents s).data.all (fun c => !isMn c) = true) ∧
    normalizeTextV Json.null = Json.null ∧
    (∀ b, normalizeTextV (Json.bool b) = Json.bool b) ∧
    (∀ m e, normalizeTextV (Json.num m e) = Json.num m e) ∧
    (∀ xs, normalizeTextV (Json.arr xs) = Json.arr xs) ∧
    (∀ fs, normalizeTextV (Json.obj fs) = Json.obj fs) ∧
    removeAccentsV Json.null = Json.null ∧
    (∀ b, removeAccentsV (Json.bool b) = Json.bool b) ∧
    (∀ m e, removeAccentsV (Json.num m e) = Json.num m e) ∧
    (∀ xs, removeAccentsV (Json.arr xs) = Json.arr xs) ∧
    (∀ fs, removeAccentsV (Json.obj fs) = Json.obj fs) ∧
    normalizeText "  CAFÉ  " = "cafe" :=
  ⟨fun _ => rfl, fun _ => rfl,
    fun _ => List.all_eq_true.mpr (fun _ hc => (List.mem_filter.mp hc).2),
    rfl, fun _ => rfl, fun _ _ => rfl, fun _ => rfl, fun _ => rfl,
    rfl, fun _ => rfl, fun _ _ => rfl, fun _ => rfl, fun _ => rfl,
    by decide⟩

/-- C8: both `validateFormat` variants are total boolean functions whose
bodies are wrapped so that any failure (missing file, parse error)
becomes `false`; the CSV variant is true iff the file exists and
`csv.reader` yields at least one row, and the JSON variant is true iff
the file exists and its entire content parses as JSON. -/
theorem validateFormat_spec :
    (∀ delim fs p, csvValidateFormat delim fs p =
      (match csvValidateBody delim fs p with
       | .ok b => b
       | .error _ => false)) ∧
    (∀ fs p, jsonValidateFormat fs p =
      (match jsonValidateBody fs p with
       | .ok b => b
       | .error _ => false)) ∧
    (∀ delim fs p, csvValidateFormat delim fs p = true ↔
      ∃ c, fs p = some c ∧ parseCSVRows delim c ≠ []) ∧
    (∀ fs p, jsonValidateFormat fs p = true ↔
      ∃ c, fs p = some c ∧ ∃ v, jsonParse c = Except.ok v) := by
  refine ⟨fun _ _ _ => rfl, fun _ _ => rfl, ?_, ?_⟩
  · intro delim fs p
    rw [csvValidateFormat, csvValidateBody]
    cases hfp : fs p with
    | none => simp
    | some c => simp [List.isEmpty_iff]
  · intro fs p
    rw [jsonValidateFormat, jsonValidateBody]
    cases hfp : fs p with
    | none => simp
    | some c =>
      cases hjp : jsonParse c with
      | ok v => simp [hjp]
      | error e => simp [hjp]

/-- C9 counterexample: a record with a key outside the first record's
keys makes `writeData` raise a `ValueError` (DictWriter's
`extrasaction='raise'`), not silently produce misaligned columns; the
rows before the failing one are already on disk. -/
theorem csvWriteData_extra_key_error :
    (csvWriteData ',' [[("a", Json.str "1")], [("a", Json.str "2"), ("b", Json.str "3")]]
      "out.csv" (fun _ => none)).1
      = Except.error (PyErr.valueError "dict contains fields not in fieldnames") ∧
    (csvWriteData ',' [[("a", Json.str "1")], [("a", Json.str "2"), ("b", Json.str "3")]]
      "out.csv" (fun _ => none)).2 "out.csv" = some "a\r\n1\r\n" := ⟨rfl, rfl⟩

theorem csvWriteRows_ok (delim : Char) (fieldnames : List String) :
    ∀ rs : List Record,
    rs.all (fun r => r.all (fun kv => fieldnames.contains kv.1)) = true →
    csvWriteRows delim fieldnames rs =
      (concatAll (rs.map (fun r => rowLine delim (fieldnames.map (fun k =>
        match recFind r k with
        | some v => csvCellStr v
        | none => "")))), none) := by
  intro rs
  induction rs with
  | nil => intro _; rfl
  | cons r rest ih =>
    intro hall
    rw [List.all_cons, Bool.and_eq_true] at hall
    have hrow : dictToRow fieldnames r = Except.ok (fieldnames.map (fun k =>
        match recFind r k with | some v => csvCellStr v | none => "")) := by
      rw [dictToRow, if_neg]
      intro hcontra
      rw [List.any_eq_true] at hcontra
      obtain ⟨kv, hkv, hne⟩ := hcontra
      have hc := List.all_eq_true.mp hall.1 kv hkv
      rw [hc] at hne
      exact absurd hne (by decide)
    show (match dictToRow fieldnames r with
      | .error e => ("", some e)
      | .ok row => (rowLine delim row ++ (csvWriteRows delim fieldnames rest).1,
          (csvWriteRows delim fieldnames rest).2)) = _
    rw [hrow, ih hall.2]
    rfl

theorem csvWriteData_cons (delim : Char) (first : Record) (rest : List Record)
    (p : String) (fs : FS) :
    csvWriteData delim (first :: rest) p fs =
      (match (csvWriteRows delim (first.map (fun q => q.1)) (first :: rest)).2 with
       | some e => (Except.error e,
           fsWrite fs p (rowLine delim (first.map (fun q => q.1))
             ++ (csvWriteRows delim (first.map (fun q => q.1)) (first :: rest)).1))
       | none => (Except.ok true,
           fsWrite fs p (rowLine delim (first.map (fun q => q.1))
             ++ (csvWriteRows delim (first.map (fun q => q.1)) (first :: rest)).1))) := rfl

/-- C9 (amended): CSV `writeData` returns `false` and writes nothing on
an empty dataset; on a non-empty dataset whose records all stay within
the first record's keys it writes a header row from the first record's
keys followed by one row per record with the values in that key order
(missing keys become empty cells) and returns `true`; a record with a
key outside the first record's keys instead raises a `ValueError`
mid-write (see the counterexample). -/
theorem csvWriteData_spec (delim : Char) (fs : FS) (p : String) :
    csvWriteData delim [] p fs = (Except.ok false, fs) ∧
    (∀ first rest,
      ((first :: rest : Dataset).all (fun r => r.all (fun kv =>
        (first.map (fun q => q.1)).contains kv.1)) = true →
        csvWriteData delim (first :: rest) p fs
          = (Except.ok true, fsWrite fs p (csvText delim first rest)))) := by
  refine ⟨rfl, ?_⟩
  intro first rest hall
  have h := csvWriteRows_ok delim (first.map (fun q => q.1)) (first :: rest) hall
  rw [csvWriteData_cons, h]
  rfl

theorem csvWriteData_spec_witness :
    (([[("a", Json.str "1")], [("a", Json.str "2")]] : Dataset).all (fun r =>
      r.all (fun kv =>
        (([("a", Json.str "1")] : Record).map (fun q => q.1)).contains kv.1)) = true) ∧
    csvWriteData ',' [[("a", Json.str "1")], [("a", Json.str "2")]] "w.csv" (fun _ => none)
      = (Except.ok true, fsWrite (fun _ => none) "w.csv"
          (csvText ',' [("a", Json.str "1")] [[("a", Json.str "2")]])) :=
  ⟨by decide, (csvWriteData_spec ',' (fun _ => none) "w.csv").2
      [("a", Json.str "1")] [[("a", Json.str "2")]] (by decide)⟩

/-- C10: dispatch lowercases the extension before matching, so any casing
of `.csv` or `.json` selects the corresponding converter (provided the
path exists, which the constructor separately requires), and the
unsupported-format `ValueError` is raised exactly when the lowercased
extension is neither `.csv` nor `.json`. -/
theorem getConverter_spec :
    (∀ fs p, (∃ m, getConverter fs p = Except.error (PyErr.valueError m)) ↔
      (lowerExt p ≠ ".csv" ∧ lowerExt p ≠ ".json")) ∧
    (∀ fs p, (fs p).isSome = true → lowerExt p = ".csv" →
      getConverter fs p = Except.ok ConvKind.csv) ∧
    (∀ fs p, (fs p).isSome = true → lowerExt p = ".json" →
      getConverter fs p = Except.ok ConvKind.json) ∧
    lowerExt "data.CSV" = ".csv" ∧ lowerExt "data.Json" = ".json" ∧
    lowerExt "data.xml" = ".xml" := by
  refine ⟨?_, ?_, ?_, by decide, by decide, by decide⟩
  · intro fs p
    constructor
    · rintro ⟨m, hm⟩
      by_cases h1 : lowerExt p = ".csv"
      · rw [getConverter, if_pos h1] at hm
        by_cases h2 : (fs p).isSome = true
        · rw [if_pos h2] at hm
          exact absurd hm (by simp)
        · rw [if_neg h2] at hm
          exact absurd hm (by simp)
      · by_cases h3 : lowerExt p = ".json"
        · rw [getConverter, if_neg h1, if_pos h3] at hm
          by_cases h2 : (fs p).isSome = true
          · rw [if_pos h2] at hm
            exact absurd hm (by simp)
          · rw [if_neg h2] at hm
            exact absurd hm (by simp)
        · exact ⟨h1, h3⟩
    · rintro ⟨h1, h3⟩
      refine ⟨"Formato no compatible: " ++ lowerExt p, ?_⟩
      rw [getConverter, if_neg h1, if_neg h3]
  · intro fs p hsome hext
    rw [getConverter, if_pos hext, if_pos hsome]
  · intro fs p hsome hext
    rw [getConverter, if_neg (by rw [hext]; decide), if_pos hext, if_pos hsome]

theorem getConverter_spec_witness :
    (((fun _ => some "x") : FS) "a.CSV").isSome = true ∧
    lowerExt "a.CSV" = ".csv" ∧
    getConverter (fun _ => some "x") "a.CSV" = Except.ok ConvKind.csv :=
  ⟨rfl, by decide, getConverter_spec.2.1 (fun _ => some "x") "a.CSV" rfl (by decide)⟩

/-- C2 (code bug): for the CSV file `Nombre,Edad` / `Ana,30`, `convert`
to a `.json` output raises `FileNotFoundError` for the OUTPUT path when
the output file does not yet exist, because `DataConverter.__init__`
checks existence of the output path too — contradicting the claim that
it writes the JSON and returns true.  When the output file already
exists, the conversion does write exactly the claimed JSON array
`[{"nombre": "ana", "edad": "30"}]` and returns `True`. -/
theorem convert_example_output_check :
    (convert "in.csv" "out.json"
      (fun p => if p = "in.csv" then some "Nombre,Edad\nAna,30" else none)).1
      = Except.error (PyErr.fileNotFound "out.json") ∧
    (convert "in.csv" "out.json"
      (fun p => if p = "in.csv" then some "Nombre,Edad\nAna,30"
        else if p = "out.json" then some "" else none)).1 = Except.ok true ∧
    (convert "in.csv" "out.json"
      (fun p => if p = "in.csv" then some "Nombre,Edad\nAna,30"
        else if p = "out.json" then some "" else none)).2 "out.json"
      = some "[\n    \x7b\n        \"nombre\": \"ana\",\n        \"edad\": \"30\"\n    \x7d\n]" :=
  ⟨rfl, rfl, rfl⟩

/-- C3 (code bug): `convert` raises `FileNotFoundError` when the input
path is missing, as the claim says — but it also raises it for the
output side: with an existing, format-valid CSV input and a supported
`.json` output extension, a non-existent output file makes
`getConverter(outputPath)`'s constructor raise, so the writer's
directory creation is never reached. -/
theorem convert_notfound_behavior :
    (convert "table.csv" "res.json"
      (fun p => if p = "table.csv" then some "A,B\n1,2" else none)).1
      = Except.error (PyErr.fileNotFound "res.json") ∧
    csvValidateFormat ','
      (fun p => if p = "table.csv" then some "A,B\n1,2" else none) "table.csv" = true ∧
    lowerExt "res.json" = ".json" ∧
    (convert "missing.csv" "res.json" (fun _ => none)).1
      = Except.error (PyErr.fileNotFound "missing.csv") :=
  ⟨rfl, rfl, rfl, rfl⟩

end FromCSVtoJSON
